import Mathlib

/-!
Verification of the blast_project.py pipeline: table filtering, list
building, FASTA streaming parse, 60-column wrapping, sequence extraction
and the main control flow.  Machine floats of the source are modeled as
exact rationals (`Option ℚ`, with `none` standing for a missing value /
NaN after numeric coercion).  A file is modeled as its list of lines with
the trailing newline already stripped from each line.  String scanning
primitives of the source (startswith, slicing, split) are modeled
directly on the character list of the string so that all definitions
evaluate by kernel reduction.
-/

namespace BlastProject

/-- One row of the 12-column alignment table after `load_blast_table`
(lines 31-54 of blast_project.py).  The `%identity` and `evalue` columns
are coerced to numeric with failures becoming a missing marker, modeled
as `Option ℚ`; the nine columns the program never reads are kept as raw
field text. -/
structure BlastRow where
  query_ID : String
  subject_ID : String
  identity : Option ℚ
  alignment_length : String
  mismatches : String
  gap_opens : String
  q_start : String
  q_end : String
  s_start : String
  s_end : String
  evalue : Option ℚ
  bit_score : String
deriving DecidableEq, Repr

/-- IDENTITY_THRESHOLD = 35.0 (line 27). -/
def IDENTITY_THRESHOLD : ℚ := 35

/-- EVALUE_THRESHOLD = 1e-7 (line 28), the exact rational 1 / 10 ^ 7,
given in normal form so comparisons evaluate by kernel reduction. -/
def EVALUE_THRESHOLD : ℚ := ⟨1, 10 ^ 7, by norm_num, by norm_num⟩

/-- The row mask `df["%identity"] >= IDENTITY_THRESHOLD` (line 58).  A
missing value compares false, as NaN does in pandas. -/
def passIdentity (r : BlastRow) : Bool :=
  match r.identity with
  | none => false
  | some v => decide (IDENTITY_THRESHOLD ≤ v)

/-- The row mask `df["evalue"] <= EVALUE_THRESHOLD` (line 59).  A missing
value compares false, as NaN does in pandas. -/
def passEvalue (r : BlastRow) : Bool :=
  match r.evalue with
  | none => false
  | some v => decide (v ≤ EVALUE_THRESHOLD)

/-- Model of `pandas.Series.unique` (lines 58-59): keeps the first
occurrence of each value in scan order, tracking the already seen values
in an accumulator. -/
def pandasUniqueAux : List String → List String → List String
  | [], _ => []
  | x :: xs, seen =>
    if x ∈ seen then pandasUniqueAux xs seen
    else x :: pandasUniqueAux xs (x :: seen)

/-- unique of a column, starting from no seen values. -/
def pandasUnique (l : List String) : List String := pandasUniqueAux l []

/-- List 1 of `make_lists` (line 58): unique subject identifiers of rows
passing the identity threshold. -/
def make_lists_list1 (df : List BlastRow) : List String :=
  pandasUnique ((df.filter passIdentity).map BlastRow.subject_ID)

/-- List 2 of `make_lists` (line 59): unique subject identifiers of rows
passing the e-value threshold. -/
def make_lists_list2 (df : List BlastRow) : List String :=
  pandasUnique ((df.filter passEvalue).map BlastRow.subject_ID)

/-- Content written to list1_identity_ge35.txt (line 60):
newline-joined identifiers plus a trailing newline. -/
def list1_file_content (df : List BlastRow) : String :=
  String.intercalate "\n" (make_lists_list1 df) ++ "\n"

/-- Content written to list2_evalue_le1e-7.txt (line 61). -/
def list2_file_content (df : List BlastRow) : String :=
  String.intercalate "\n" (make_lists_list2 df) ++ "\n"

/-- A line starting the header of a FASTA record, `line.startswith(">")`
(line 126), read off the first character. -/
def isHeaderLine (l : String) : Bool :=
  match l.data with
  | [] => false
  | c :: _ => c = '>'

/-- The header text `line[1:]` of a header line (line 129). -/
def headerOfLine (l : String) : String := String.mk (l.data.drop 1)

/-- Loop of `fasta_iterator` (lines 120-134): the state is the optional
current header and the accumulated sequence lines; a header line first
emits the completed record (when one is open) and opens a new one; any
other line is appended to the buffer; end of input emits the open record. -/
def fastaLoop : List String → Option String → List String → List (String × String)
  | [], none, _ => []
  | [], some h, acc => [(h, String.join acc)]
  | l :: ls, none, acc =>
    if isHeaderLine l then fastaLoop ls (some (headerOfLine l)) []
    else fastaLoop ls none (acc ++ [l])
  | l :: ls, some h, acc =>
    if isHeaderLine l then (h, String.join acc) :: fastaLoop ls (some (headerOfLine l)) []
    else fastaLoop ls (some h) (acc ++ [l])

/-- The records `fasta_iterator` yields for a file given as its list of
lines. -/
def fasta_iterator (lines : List String) : List (String × String) :=
  fastaLoop lines none []

/-- Stated from the claim wording, for comparison with `fasta_iterator`:
one record per header-marker line, whose sequence is the concatenation of
the lines between that header and the next marker or end of file; lines
before the first marker yield nothing. -/
def markerSplitRecords : List String → List (String × String)
  | [] => []
  | l :: ls =>
    if isHeaderLine l then
      (headerOfLine l, String.join (ls.takeWhile fun x => !isHeaderLine x)) ::
        markerSplitRecords (ls.dropWhile fun x => !isHeaderLine x)
    else markerSplitRecords ls
termination_by l => l.length
decreasing_by
  all_goals simp only [List.length_cons]
  · exact Nat.lt_succ_of_le (List.Sublist.length_le (List.dropWhile_sublist _))
  · exact Nat.lt_succ_of_le (Nat.le_refl _)

/-- Fueled form of the slicing loop `range(0, len(seq), 60)`
(lines 143-144); one piece of at most 60 characters is cut per step, so
fuel equal to the length of the sequence always suffices. -/
def wrapChunksGo : Nat → List Char → List (List Char)
  | _, [] => []
  | 0, _ :: _ => []
  | n + 1, c :: cs => ((c :: cs).take 60) :: wrapChunksGo n ((c :: cs).drop 60)

/-- Chunks of the sequence written for a matched record (lines 143-144):
the sequence cut into consecutive pieces of 60 characters, the last piece
possibly shorter. -/
def wrapChunks (s : List Char) : List (List Char) :=
  wrapChunksGo s.length s

/-- The lines `seq[i : i + 60]` written for a matched record
(lines 143-144). -/
def wrap60 (seq : String) : List String :=
  (wrapChunks seq.data).map fun cs => String.mk cs

/-- Model of `header.split()` (line 140): maximal runs of non-whitespace
characters, whitespace runs separating and never producing empty tokens. -/
def splitWsAux : List Char → List Char → List String
  | [], cur => if cur.isEmpty then [] else [String.mk cur.reverse]
  | c :: cs, cur =>
    if c.isWhitespace then
      if cur.isEmpty then splitWsAux cs [] else String.mk cur.reverse :: splitWsAux cs []
    else splitWsAux cs (c :: cur)

/-- whitespace split of a string, as `str.split()` with no argument. -/
def pySplitWs (s : String) : List String := splitWsAux s.data []

/-- Model of `header.split()[0]` (line 140): the primary identifier.
Python raises IndexError when the header has no token; that is modeled
as `none`. -/
def primaryId (header : String) : Option String :=
  (pySplitWs header).head?

/-- Body of the `extract_sequences` loop for one record (lines 139-144):
the lines written for it, or `none` when `header.split()[0]` raises. -/
def recordLines (wanted : List String) (rec : String × String) : Option (List String) :=
  match primaryId rec.1 with
  | none => none
  | some pid =>
    if pid ∈ wanted then some ((">" ++ rec.1) :: wrap60 rec.2) else some []

/-- Folds `recordLines` over the parsed records, aborting at the first
record whose header raises, as the Python loop does. -/
def writeRecords (wanted : List String) : List (String × String) → Option (List String)
  | [] => some []
  | r :: rs =>
    match recordLines wanted r with
    | none => none
    | some out =>
      match writeRecords wanted rs with
      | none => none
      | some rest => some (out ++ rest)

/-- extract_sequences (lines 137-144): the lines of the output FASTA
file, or `none` when the run raises. -/
def extract_sequences (fastaLines : List String) (wanted : List String) :
    Option (List String) :=
  writeRecords wanted (fasta_iterator fastaLines)

/-- The records that pass the membership test and are written
(lines 141-144). -/
def matchedRecords (wanted : List String) (recs : List (String × String)) :
    List (String × String) :=
  recs.filter fun r =>
    match primaryId r.1 with
    | some pid => decide (pid ∈ wanted)
    | none => false

/-- shared = list1 & list2 (line 167): the identifiers of list 1 that
also occur in list 2; membership in this list models membership in the
Python set intersection. -/
def shared_ids (df : List BlastRow) : List String :=
  (make_lists_list1 df).filter fun s => s ∈ make_lists_list2 df

/-- Observable outcome of one run of `main` (lines 160-180) after
argument parsing: contents of the two list files, whether the
no-shared-hits notice was printed, the exit code, whether the heat-map
image file was produced, and the lines of the filtered sequence file
when one was produced. -/
structure MainOutputs where
  list1_file : String
  list2_file : String
  printed_no_shared_notice : Bool
  exit_code : Nat
  heatmap_file_written : Bool
  fasta_file : Option (List String)
deriving DecidableEq, Repr

/-- main (lines 160-180) on the loaded table and the sequence file
lines: the list files are always written; an empty intersection prints
the notice and exits 0 with no further output; otherwise the heat-map is
rendered and the extractor runs, an uncaught exception there aborting
with a nonzero exit. -/
def main_run (df : List BlastRow) (fastaLines : List String) : MainOutputs :=
  if shared_ids df = [] then
    ⟨list1_file_content df, list2_file_content df, true, 0, false, none⟩
  else
    ⟨list1_file_content df, list2_file_content df, false,
      if (extract_sequences fastaLines (shared_ids df)).isSome then 0 else 1,
      true, extract_sequences fastaLines (shared_ids df)⟩

/-- Model of the comment parameter of `pd.read_csv` (line 51): a hash
character truncates its line from its first occurrence. -/
def commentStrip (line : String) : String :=
  String.mk (line.data.takeWhile fun c => c ≠ '#')

/-- Model of the tokenization of one data line at `sep="\t"` (line 51):
tab-separated fields, empty fields kept. -/
def splitTabAux : List Char → List Char → List String
  | [], cur => [String.mk cur.reverse]
  | c :: cs, cur =>
    if c = '\t' then String.mk cur.reverse :: splitTabAux cs []
    else splitTabAux cs (c :: cur)

/-- The fields of one tab-separated line. -/
def tabFields (line : String) : List String := splitTabAux line.data []

/-- The data lines the csv read of line 51 parses: comment text is
stripped, lines left empty (blank lines and whole-line comments) are
skipped, and the first remaining line is the header row, discarded
because the column names are supplied. -/
def csvDataLines (lines : List String) : List String :=
  ((lines.map commentStrip).filter fun l => l ≠ "").drop 1

/-- Value of a run of decimal digits. -/
def digitsVal (cs : List Char) : Nat :=
  cs.foldl (fun a c => 10 * a + (c.toNat - 48)) 0

/-- all characters are decimal digits. -/
def allDigits (cs : List Char) : Bool := cs.all fun c => c.isDigit

/-- strip leading and trailing whitespace, as numeric conversion does. -/
def trimWs (cs : List Char) : List Char :=
  ((cs.dropWhile fun c => c.isWhitespace).reverse.dropWhile fun c => c.isWhitespace).reverse

/-- split at the first exponent marker e or E. -/
def splitExpAux : List Char → List Char → List Char × Option (List Char)
  | [], pre => (pre.reverse, none)
  | c :: cs, pre =>
    if c = 'e' ∨ c = 'E' then (pre.reverse, some cs) else splitExpAux cs (c :: pre)

/-- split at the first decimal point. -/
def splitDotAux : List Char → List Char → List Char × Option (List Char)
  | [], pre => (pre.reverse, none)
  | c :: cs, pre =>
    if c = '.' then (pre.reverse, some cs) else splitDotAux cs (c :: pre)

/-- optional leading sign; true means negative. -/
def splitSign : List Char → Bool × List Char
  | [] => (false, [])
  | c :: cs =>
    if c = '-' then (true, cs) else if c = '+' then (false, cs) else (false, c :: cs)

/-- digits of a mantissa, integer part and optional fraction with at
least one digit in total: the value is the returned numerator over ten
to the returned fraction length. -/
def parseMantissa (cs : List Char) : Option (Nat × Nat) :=
  match splitDotAux cs [] with
  | (ip, none) =>
    if ip ≠ [] ∧ allDigits ip then some (digitsVal ip, 0) else none
  | (ip, some fp) =>
    if (ip ≠ [] ∨ fp ≠ []) ∧ allDigits ip ∧ allDigits fp then
      some (digitsVal (ip ++ fp), fp.length)
    else none

/-- optionally signed exponent digits. -/
def parseExp (cs : List Char) : Option Int :=
  match splitSign cs with
  | (neg, ds) =>
    if ds ≠ [] ∧ allDigits ds then
      some (if neg then -(digitsVal ds : Int) else (digitsVal ds : Int))
    else none

/-- Model of `pd.to_numeric(..., errors="coerce")` on one field
(lines 52-53): an optionally signed decimal literal with optional
exponent becomes an exact rational; any other text, and an absent
field, becomes the missing marker (non-finite literals such as inf and
nan are not modeled and also map to missing). -/
def pyToNumeric (s : String) : Option ℚ :=
  match splitSign (trimWs s.data) with
  | (neg, rest) =>
    match splitExpAux rest [] with
    | (mant, expPart) =>
      match parseMantissa mant, expPart with
      | none, _ => none
      | some (m, fl), none =>
        some ((if neg then -1 else 1) * (m : ℚ) / 10 ^ fl)
      | some (m, fl), some es =>
        match parseExp es with
        | none => none
        | some e =>
          some ((if neg then -1 else 1) * (m : ℚ) / 10 ^ fl * (10 : ℚ) ^ e)

/-- One data row (line 51 with the names of lines 31-44, then the
numeric coercion of lines 52-53).  Missing trailing fields are filled
with the missing marker; for the raw text columns that marker is
written as the empty string, unobservable because the program never
reads those columns. -/
def parseRowPadded (line : String) : BlastRow :=
  let fs := tabFields line
  ⟨fs.getD 0 "", fs.getD 1 "", pyToNumeric (fs.getD 2 ""),
    fs.getD 3 "", fs.getD 4 "", fs.getD 5 "",
    fs.getD 6 "", fs.getD 7 "", fs.getD 8 "", fs.getD 9 "",
    pyToNumeric (fs.getD 10 ""), fs.getD 11 ""⟩

/-- load_blast_table (lines 50-54) on the file lines.  pandas pads a
data line that has fewer fields than the 12 supplied names with missing
values instead of raising; a line with more than 12 fields is outside
the scope of this model (none is returned there and no theorem below
relies on that case). -/
def load_blast_table (lines : List String) : Option (List BlastRow) :=
  if (csvDataLines lines).all (fun l => (tabFields l).length ≤ 12) then
    some ((csvDataLines lines).map parseRowPadded)
  else none

/-- A concrete alignment row used by witnesses: the unread columns are
left blank. -/
def exRow (q s : String) (idv ev : Option ℚ) : BlastRow :=
  ⟨q, s, idv, "", "", "", "", "", "", "", ev, ""⟩

/-- A concrete csv header line used by the loader witnesses. -/
def exHeaderLine : String :=
  "qseqid\tsseqid\tpident\tlength\tmismatch\tgapopen\tqstart\tqend\tsstart\tsend\tevalue\tbitscore"

/-- A concrete data line with 11 fields, the bit score column absent. -/
def exShortLine : String := "Q1\tS1\t40.0\t100\t5\t1\t1\t100\t1\t100\t1e-09"

theorem EVALUE_THRESHOLD_eq : EVALUE_THRESHOLD = 1 / 10 ^ 7 := by
  rw [EVALUE_THRESHOLD, Rat.mk'_eq_divInt, Rat.divInt_eq_div]
  norm_num

theorem passIdentity_iff (r : BlastRow) :
    passIdentity r = true ↔ ∃ v, r.identity = some v ∧ IDENTITY_THRESHOLD ≤ v := by
  cases h : r.identity with
  | none => simp [passIdentity, h]
  | some v => simp [passIdentity, h]

theorem passEvalue_iff (r : BlastRow) :
    passEvalue r = true ↔ ∃ v, r.evalue = some v ∧ v ≤ EVALUE_THRESHOLD := by
  cases h : r.evalue with
  | none => simp [passEvalue, h]
  | some v => simp [passEvalue, h]

theorem mem_pandasUniqueAux {a : String} : ∀ (l seen : List String),
    a ∈ pandasUniqueAux l seen ↔ a ∈ l ∧ a ∉ seen := by
  intro l
  induction l with
  | nil => intro seen; simp [pandasUniqueAux]
  | cons x xs ih =>
    intro seen
    by_cases hx : x ∈ seen
    · rw [pandasUniqueAux, if_pos hx, ih]
      constructor
      · rintro ⟨h1, h2⟩
        exact ⟨List.mem_cons_of_mem _ h1, h2⟩
      · rintro ⟨h1, h2⟩
        rcases List.mem_cons.mp h1 with rfl | h3
        · exact absurd hx h2
        · exact ⟨h3, h2⟩
    · rw [pandasUniqueAux, if_neg hx]
      simp only [List.mem_cons, ih]
      constructor
      · rintro (rfl | ⟨h1, h2⟩)
        · exact ⟨Or.inl rfl, hx⟩
        · push_neg at h2
          exact ⟨Or.inr h1, h2.2⟩
      · rintro ⟨h1, h2⟩
        rcases h1 with rfl | h1
        · exact Or.inl rfl
        · by_cases hax : a = x
          · exact Or.inl hax
          · refine Or.inr ⟨h1, ?_⟩
            push_neg
            exact ⟨hax, h2⟩

theorem nodup_pandasUniqueAux : ∀ (l seen : List String),
    (pandasUniqueAux l seen).Nodup := by
  intro l
  induction l with
  | nil => intro seen; simp [pandasUniqueAux]
  | cons x xs ih =>
    intro seen
    by_cases hx : x ∈ seen
    · rw [pandasUniqueAux, if_pos hx]
      exact ih seen
    · rw [pandasUniqueAux, if_neg hx]
      refine List.nodup_cons.mpr ⟨?_, ih _⟩
      rw [mem_pandasUniqueAux]
      rintro ⟨_, h2⟩
      exact h2 (List.mem_cons_self x seen)

theorem mem_pandasUnique {a : String} {l : List String} :
    a ∈ pandasUnique l ↔ a ∈ l := by
  rw [pandasUnique, mem_pandasUniqueAux]
  simp

theorem nodup_pandasUnique (l : List String) : (pandasUnique l).Nodup :=
  nodup_pandasUniqueAux l []

/-- C1: List A holds exactly the distinct subject identifiers of rows
whose percent identity is non-missing and at least 35.0, List B exactly
those of rows whose e-value is non-missing and at most 1e-7, and rows
with a missing coerced value are in neither list. -/
theorem C1_make_lists_lists_exact (df : List BlastRow) (s : String) :
    (s ∈ make_lists_list1 df ↔
      ∃ r ∈ df, r.subject_ID = s ∧ ∃ v, r.identity = some v ∧ (35 : ℚ) ≤ v) ∧
    (s ∈ make_lists_list2 df ↔
      ∃ r ∈ df, r.subject_ID = s ∧ ∃ v, r.evalue = some v ∧ v ≤ 1 / 10 ^ 7) ∧
    (make_lists_list1 df).Nodup ∧ (make_lists_list2 df).Nodup := by
  refine ⟨?_, ?_, nodup_pandasUnique _, nodup_pandasUnique _⟩
  · rw [make_lists_list1, mem_pandasUnique]
    simp only [List.mem_map, List.mem_filter]
    constructor
    · rintro ⟨r, ⟨hr, hp⟩, hs⟩
      obtain ⟨v, hv, hle⟩ := (passIdentity_iff r).mp hp
      exact ⟨r, hr, hs, v, hv, hle⟩
    · rintro ⟨r, hr, hs, v, hv, hle⟩
      exact ⟨r, ⟨hr, (passIdentity_iff r).mpr ⟨v, hv, hle⟩⟩, hs⟩
  · rw [make_lists_list2, mem_pandasUnique]
    simp only [List.mem_map, List.mem_filter]
    constructor
    · rintro ⟨r, ⟨hr, hp⟩, hs⟩
      obtain ⟨v, hv, hle⟩ := (passEvalue_iff r).mp hp
      rw [EVALUE_THRESHOLD_eq] at hle
      exact ⟨r, hr, hs, v, hv, hle⟩
    · rintro ⟨r, hr, hs, v, hv, hle⟩
      rw [← EVALUE_THRESHOLD_eq] at hle
      exact ⟨r, ⟨hr, (passEvalue_iff r).mpr ⟨v, hv, hle⟩⟩, hs⟩

theorem fastaLoop_some (ls : List String) : ∀ (h : String) (acc : List String),
    fastaLoop ls (some h) acc =
      (h, String.join (acc ++ ls.takeWhile fun x => !isHeaderLine x)) ::
        markerSplitRecords (ls.dropWhile fun x => !isHeaderLine x) := by
  induction ls with
  | nil => intro h acc; simp [fastaLoop, markerSplitRecords]
  | cons l ls ih =>
    intro h acc
    by_cases hl : isHeaderLine l
    · have hdw : ((l :: ls).dropWhile fun x => !isHeaderLine x) = l :: ls := by
        simp [List.dropWhile_cons, hl]
      have htw : ((l :: ls).takeWhile fun x => !isHeaderLine x) = [] := by
        simp [List.takeWhile_cons, hl]
      rw [htw, hdw, markerSplitRecords]
      simp [fastaLoop, hl, ih]
    · simp [fastaLoop, hl, ih, List.takeWhile_cons, List.dropWhile_cons]

theorem fastaLoop_none (ls : List String) : ∀ (acc : List String),
    fastaLoop ls none acc = markerSplitRecords ls := by
  induction ls with
  | nil => intro acc; simp [fastaLoop, markerSplitRecords]
  | cons l ls ih =>
    intro acc
    by_cases hl : isHeaderLine l
    · rw [markerSplitRecords]
      simp [fastaLoop, hl, fastaLoop_some]
    · rw [markerSplitRecords]
      simp [fastaLoop, hl, ih]

theorem length_markerSplitRecords : ∀ (lines : List String),
    (markerSplitRecords lines).length = lines.countP isHeaderLine := by
  intro lines
  induction lines using markerSplitRecords.induct with
  | case1 => simp [markerSplitRecords]
  | case2 l ls hl ih =>
    rw [markerSplitRecords]
    simp only [hl, if_true, List.length_cons, ih, List.countP_cons]
    have hsplit := List.takeWhile_append_dropWhile (p := fun x => !isHeaderLine x) (l := ls)
    have h0 : (ls.takeWhile fun x => !isHeaderLine x).countP isHeaderLine = 0 := by
      rw [List.countP_eq_zero]
      intro a ha
      have := List.mem_takeWhile_imp ha
      simpa using this
    calc (ls.dropWhile fun x => !isHeaderLine x).countP isHeaderLine + 1
        = ((ls.takeWhile fun x => !isHeaderLine x).countP isHeaderLine +
            (ls.dropWhile fun x => !isHeaderLine x).countP isHeaderLine) + 1 := by
          rw [h0]; omega
      _ = ls.countP isHeaderLine + 1 := by rw [← List.countP_append, hsplit]
      _ = _ := by simp [hl]
  | case3 l ls hl ih =>
    rw [markerSplitRecords]
    simp [hl, ih, List.countP_cons]

/-- C3: the streaming parser yields one record per header-marker line,
with the sequence equal to the concatenation of the lines between that
header and the next marker or the end of file, the final record emitted
at end of file, and lines before the first marker yielding no record:
`fasta_iterator` coincides with the marker-split reading of the file, and
emits exactly one pair per header line. -/
theorem C3_fasta_iterator_matches_marker_split (lines : List String) :
    fasta_iterator lines = markerSplitRecords lines ∧
      (fasta_iterator lines).length = lines.countP isHeaderLine := by
  refine ⟨fastaLoop_none lines [], ?_⟩
  rw [fasta_iterator, fastaLoop_none]
  exact length_markerSplitRecords lines

theorem wrapChunksGo_eq_nil_iff : ∀ (n : Nat) (s : List Char), s.length ≤ n →
    (wrapChunksGo n s = [] ↔ s = []) := by
  intro n s hn
  cases s with
  | nil => simp [wrapChunksGo]
  | cons c cs =>
    cases n with
    | zero => simp at hn
    | succ n => simp [wrapChunksGo]

theorem wrapChunksGo_flatten : ∀ (n : Nat) (s : List Char), s.length ≤ n →
    (wrapChunksGo n s).flatten = s := by
  intro n
  induction n with
  | zero =>
    intro s hs
    have hnil : s = [] := List.length_eq_zero.mp (by omega)
    subst hnil
    rfl
  | succ n ih =>
    intro s hs
    cases s with
    | nil => rfl
    | cons c cs =>
      have hd : ((c :: cs).drop 60).length ≤ n := by
        simp only [List.length_drop, List.length_cons]
        simp only [List.length_cons] at hs
        omega
      rw [wrapChunksGo, List.flatten_cons, ih _ hd, List.take_append_drop]

theorem wrapChunksGo_mem_length : ∀ (n : Nat) (s : List Char), s.length ≤ n →
    ∀ c ∈ wrapChunksGo n s, 0 < c.length ∧ c.length ≤ 60 := by
  intro n
  induction n with
  | zero =>
    intro s hs
    have hnil : s = [] := List.length_eq_zero.mp (by omega)
    subst hnil
    simp [wrapChunksGo]
  | succ n ih =>
    intro s hs
    cases s with
    | nil => simp [wrapChunksGo]
    | cons c cs =>
      have hd : ((c :: cs).drop 60).length ≤ n := by
        simp only [List.length_drop, List.length_cons]
        simp only [List.length_cons] at hs
        omega
      rw [wrapChunksGo]
      intro d hdmem
      rcases List.mem_cons.mp hdmem with rfl | h2
      · simp only [List.length_take, List.length_cons]
        omega
      · exact ih _ hd d h2

theorem wrapChunksGo_dropLast_length : ∀ (n : Nat) (s : List Char), s.length ≤ n →
    ∀ c ∈ (wrapChunksGo n s).dropLast, c.length = 60 := by
  intro n
  induction n with
  | zero =>
    intro s hs
    have hnil : s = [] := List.length_eq_zero.mp (by omega)
    subst hnil
    simp [wrapChunksGo]
  | succ n ih =>
    intro s hs
    cases s with
    | nil => simp [wrapChunksGo]
    | cons c cs =>
      have hd : ((c :: cs).drop 60).length ≤ n := by
        simp only [List.length_drop, List.length_cons]
        simp only [List.length_cons] at hs
        omega
      rw [wrapChunksGo]
      by_cases h60 : (c :: cs).drop 60 = []
      · rw [h60]
        simp [wrapChunksGo]
      · have hne : wrapChunksGo n ((c :: cs).drop 60) ≠ [] := by
          rw [ne_eq, wrapChunksGo_eq_nil_iff n _ hd]
          exact h60
        rw [List.dropLast_cons_of_ne_nil hne]
        intro d hdmem
        rcases List.mem_cons.mp hdmem with rfl | h2
        · have hlen : 60 < (c :: cs).length := by
            by_contra hle
            push_neg at hle
            exact h60 (List.drop_eq_nil_of_le hle)
          simp only [List.length_take]
          omega
        · exact ih _ hd d h2

theorem wrapChunksGo_exact_multiple : ∀ (k : Nat) (n : Nat) (s : List Char),
    s.length ≤ n → s.length = 60 * k →
    (wrapChunksGo n s).length = k ∧ ∀ c ∈ wrapChunksGo n s, c.length = 60 := by
  intro k
  induction k with
  | zero =>
    intro n s hn hs
    have hnil : s = [] := List.length_eq_zero.mp (by omega)
    subst hnil
    simp [wrapChunksGo]
  | succ k ih =>
    intro n s hn hs
    cases s with
    | nil => simp at hs
    | cons c cs =>
      cases n with
      | zero => simp at hn
      | succ n =>
        have hd : ((c :: cs).drop 60).length ≤ n := by
          simp only [List.length_drop, List.length_cons]
          simp only [List.length_cons] at hn
          omega
        have hdk : ((c :: cs).drop 60).length = 60 * k := by
          simp only [List.length_drop, List.length_cons]
          simp only [List.length_cons] at hs
          omega
        obtain ⟨ihlen, ihmem⟩ := ih n _ hd hdk
        rw [wrapChunksGo]
        refine ⟨by rw [List.length_cons, ihlen], ?_⟩
        intro d hdmem
        rcases List.mem_cons.mp hdmem with rfl | h2
        · simp only [List.length_take, List.length_cons]
          simp only [List.length_cons] at hs
          omega
        · exact ihmem d h2

theorem flatten_wrapChunks (s : List Char) : (wrapChunks s).flatten = s :=
  wrapChunksGo_flatten s.length s (Nat.le_refl _)

/-- C6: wrapping at width 60 yields lines of exactly 60 characters except
a possibly shorter (never empty) last line; a sequence of length 60·k
yields exactly k full lines and no empty trailing line; re-wrapping the
concatenation of the wrapped lines reproduces the same line structure;
and the written lines of the extractor are exactly these chunks. -/
theorem C6_wrap_sixty_structure (s : List Char) (k : Nat) :
    (∀ c ∈ (wrapChunks s).dropLast, c.length = 60) ∧
    (∀ c ∈ wrapChunks s, 0 < c.length ∧ c.length ≤ 60) ∧
    (s.length = 60 * k → (wrapChunks s).length = k ∧ ∀ c ∈ wrapChunks s, c.length = 60) ∧
    wrapChunks ((wrapChunks s).flatten) = wrapChunks s ∧
    wrap60 (String.mk s) = (wrapChunks s).map String.mk := by
  refine ⟨wrapChunksGo_dropLast_length s.length s (Nat.le_refl _),
    wrapChunksGo_mem_length s.length s (Nat.le_refl _), ?_, ?_, rfl⟩
  · intro hs
    exact wrapChunksGo_exact_multiple k s.length s (Nat.le_refl _) hs
  · rw [flatten_wrapChunks]

/-- Witness for C6 at a concrete 120-character sequence. -/
theorem C6_wrap_sixty_structure_witness :
    (List.replicate 120 'G').length = 60 * 2 ∧
      (wrapChunks (List.replicate 120 'G')).length = 2 :=
  ⟨by simp, ((C6_wrap_sixty_structure (List.replicate 120 'G') 2).2.2.1 (by simp)).1⟩

theorem writeRecords_eq_some (wanted : List String) : ∀ (recs : List (String × String)),
    (∀ r ∈ recs, primaryId r.1 ≠ none) →
    writeRecords wanted recs =
      some (((matchedRecords wanted recs).map fun r => (">" ++ r.1) :: wrap60 r.2).flatten) := by
  intro recs
  induction recs with
  | nil => intro hs; simp [writeRecords, matchedRecords]
  | cons r rs ih =>
    intro hs
    have hr : primaryId r.1 ≠ none := hs r (List.mem_cons_self r rs)
    obtain ⟨pid, hpid⟩ := Option.ne_none_iff_exists'.mp hr
    have hrest := ih fun x hx => hs x (List.mem_cons_of_mem r hx)
    by_cases hm : pid ∈ wanted
    · simp [writeRecords, recordLines, hpid, hrest, matchedRecords, List.filter_cons, hm]
    · simp [writeRecords, recordLines, hpid, hrest, matchedRecords, List.filter_cons, hm]

/-- C2 as stated fails: with a shared set containing identifier A and an
input file in which A is the primary identifier of two records, the
extractor writes two records with primary identifier A, not one. -/
theorem C2_counterexample :
    (fasta_iterator [">A x", "CC", ">A y", "GG"]).countP
        (fun r => decide (primaryId r.1 = some "A")) = 2 ∧
    (matchedRecords ["A"] (fasta_iterator [">A x", "CC", ">A y", "GG"])).countP
        (fun r => decide (primaryId r.1 = some "A")) = 2 ∧
    extract_sequences [">A x", "CC", ">A y", "GG"] ["A"] =
      some [">A x", "CC", ">A y", "GG"] :=
  ⟨by decide, by decide, by decide⟩

/-- C2 (amended): provided every record header has a first token, the
extractor succeeds and writes exactly the matched records in input order:
every written record has its primary identifier in the shared set, and
each shared identifier heads exactly as many output records as there are
input records bearing it as primary identifier (hence exactly once when
it occurs once). -/
theorem C2_extract_round_trip (fastaLines : List String) (wanted : List String)
    (h : ∀ r ∈ fasta_iterator fastaLines, primaryId r.1 ≠ none) :
    extract_sequences fastaLines wanted =
      some (((matchedRecords wanted (fasta_iterator fastaLines)).map
        fun r => (">" ++ r.1) :: wrap60 r.2).flatten) ∧
    (∀ r ∈ matchedRecords wanted (fasta_iterator fastaLines),
      ∃ pid, primaryId r.1 = some pid ∧ pid ∈ wanted) ∧
    (∀ p ∈ wanted,
      (matchedRecords wanted (fasta_iterator fastaLines)).countP
          (fun r => decide (primaryId r.1 = some p)) =
        (fasta_iterator fastaLines).countP
          (fun r => decide (primaryId r.1 = some p))) := by
  refine ⟨writeRecords_eq_some wanted _ h, ?_, ?_⟩
  · intro r hr
    rw [matchedRecords] at hr
    have hp := List.of_mem_filter hr
    cases hq : primaryId r.1 with
    | none => simp [hq] at hp
    | some pid =>
      simp only [hq, decide_eq_true_eq] at hp
      exact ⟨pid, rfl, hp⟩
  · intro p hp
    rw [matchedRecords, List.countP_filter]
    apply List.countP_congr
    intro r _
    cases hq : primaryId r.1 with
    | none => simp [hq]
    | some pid =>
      by_cases he : pid = p
      · subst he
        simp [hq, hp]
      · simp [hq, he]

/-- Witness for C2 at a concrete input file and shared set. -/
theorem C2_extract_round_trip_witness :
    (∀ r ∈ fasta_iterator [">S1 desc", "AAAA", ">S2", "CCCC"], primaryId r.1 ≠ none) ∧
      extract_sequences [">S1 desc", "AAAA", ">S2", "CCCC"] ["S1"] =
        some (((matchedRecords ["S1"] (fasta_iterator [">S1 desc", "AAAA", ">S2", "CCCC"])).map
          fun r => (">" ++ r.1) :: wrap60 r.2).flatten) :=
  ⟨by decide,
    (C2_extract_round_trip [">S1 desc", "AAAA", ">S2", "CCCC"] ["S1"] (by decide)).1⟩

/-- C5 as stated fails: a record whose header is empty (a bare marker
line) makes header.split()[0] raise IndexError, modeled by the extractor
returning none. -/
theorem C5_counterexample :
    fasta_iterator [">", "CC"] = [("", "CC")] ∧
      primaryId "" = none ∧
      extract_sequences [">", "CC"] ["X"] = none :=
  ⟨by decide, by decide, by decide⟩

/-- C5 (amended): when every record header has a first token the
extractor processes all records without raising: it returns an output,
a record whose primary identifier is not in the shared set contributes
no lines, and zero matches yields an output with no lines at all. -/
theorem C5_no_error_on_nonmatching (fastaLines : List String) (wanted : List String)
    (h : ∀ r ∈ fasta_iterator fastaLines, primaryId r.1 ≠ none) :
    (∃ out, extract_sequences fastaLines wanted = some out) ∧
    (∀ r ∈ fasta_iterator fastaLines, ∀ pid, primaryId r.1 = some pid →
      pid ∉ wanted → recordLines wanted r = some []) ∧
    (matchedRecords wanted (fasta_iterator fastaLines) = [] →
      extract_sequences fastaLines wanted = some []) := by
  refine ⟨⟨_, writeRecords_eq_some wanted _ h⟩, ?_, ?_⟩
  · intro r _ pid hpid hnm
    simp [recordLines, hpid, hnm]
  · intro hmatch
    rw [extract_sequences, writeRecords_eq_some wanted _ h, hmatch]
    simp

/-- Witness for C5 at a concrete input with only a non-matching record. -/
theorem C5_no_error_on_nonmatching_witness :
    (∀ r ∈ fasta_iterator [">S1 desc", "AAAA"], primaryId r.1 ≠ none) ∧
      (∃ out, extract_sequences [">S1 desc", "AAAA"] ["ZZ"] = some out) :=
  ⟨by decide, (C5_no_error_on_nonmatching [">S1 desc", "AAAA"] ["ZZ"] (by decide)).1⟩

/-- C10: a matched record whose sequence body is empty contributes
exactly its header line: no sequence lines and no blank line after it. -/
theorem C10_empty_body_header_only (hdr : String) (wanted : List String) (pid : String)
    (h1 : primaryId hdr = some pid) (h2 : pid ∈ wanted) :
    recordLines wanted (hdr, "") = some [">" ++ hdr] ∧ wrap60 "" = [] := by
  have hw : wrap60 "" = [] := rfl
  exact ⟨by simp [recordLines, h1, h2, hw], hw⟩

/-- Witness for C10 at a concrete matched record with empty body. -/
theorem C10_empty_body_header_only_witness :
    primaryId "S1 desc" = some "S1" ∧ "S1" ∈ ["S1"] ∧
      recordLines ["S1"] ("S1 desc", "") = some [">S1 desc"] :=
  ⟨by decide, by decide,
    (C10_empty_body_header_only "S1 desc" ["S1"] "S1" (by decide) (by decide)).1⟩

/-- C7: when List A and List B share no identifier, the run prints the
no-shared-hits notice and exits with status 0 before the heat-map and
sequence-extraction steps: only the two list files are produced, no
image and no filtered sequence file. -/
theorem C7_empty_intersection_early_exit (df : List BlastRow) (fastaLines : List String)
    (h : ∀ s, ¬ (s ∈ make_lists_list1 df ∧ s ∈ make_lists_list2 df)) :
    main_run df fastaLines =
      ⟨list1_file_content df, list2_file_content df, true, 0, false, none⟩ := by
  have hs : shared_ids df = [] := by
    rw [shared_ids, List.filter_eq_nil_iff]
    intro s hme
    simp only [decide_eq_true_eq]
    exact fun h2 => h s ⟨hme, h2⟩
  rw [main_run, if_pos hs]

/-- Witness for C7 at a one-row table whose e-value list is empty. -/
theorem C7_empty_intersection_early_exit_witness :
    make_lists_list2 [exRow "Q1" "S1" (some 40) none] = [] ∧
      main_run [exRow "Q1" "S1" (some 40) none] [">S1", "AA"] =
        ⟨"S1\n", "\n", true, 0, false, none⟩ := by
  have h : ∀ s, ¬ (s ∈ make_lists_list1 [exRow "Q1" "S1" (some 40) none] ∧
      s ∈ make_lists_list2 [exRow "Q1" "S1" (some 40) none]) := by
    intro s hs
    have hnil : make_lists_list2 [exRow "Q1" "S1" (some 40) none] = [] := by decide
    rw [hnil] at hs
    exact absurd hs.2 (List.not_mem_nil s)
  exact ⟨by decide,
    by rw [C7_empty_intersection_early_exit _ [">S1", "AA"] h]; decide⟩

/-- C9: make_lists writes the list files unconditionally, so an empty
identifier list still produces its output file, and that file consists
of exactly one newline character (a single blank line), not an empty
file. -/
theorem C9_empty_list_file_single_newline (df : List BlastRow) :
    (make_lists_list1 df = [] → list1_file_content df = "\n") ∧
    (make_lists_list2 df = [] → list2_file_content df = "\n") := by
  constructor
  · intro h
    rw [list1_file_content, h]
    decide
  · intro h
    rw [list2_file_content, h]
    decide

/-- Witness for C9 at the empty table. -/
theorem C9_empty_list_file_single_newline_witness :
    make_lists_list1 [] = [] ∧ list1_file_content [] = "\n" :=
  ⟨by decide, (C9_empty_list_file_single_newline []).1 (by decide)⟩

/-- C8 as stated fails: a data line with only 11 tab-separated fields
does not make the loader fail; the missing trailing field is padded
with a missing value and the load succeeds. -/
theorem C8_counterexample :
    (tabFields exShortLine).length = 11 ∧
    load_blast_table [exHeaderLine, exShortLine] ≠ none ∧
    ((load_blast_table [exHeaderLine, exShortLine]).getD []).map BlastRow.subject_ID
        = ["S1"] ∧
    ((load_blast_table [exHeaderLine, exShortLine]).getD []).map BlastRow.bit_score
        = [""] :=
  ⟨by decide, by decide, by decide, by decide⟩

/-- C8 (amended): for a readable input whose data lines have at most 12
tab-separated fields the load succeeds, with one 12-field row per data
line; a low column count is padded with missing values, not an error
(the unreadable-file failure is outside this line-level model). -/
theorem C8_loader_returns_table (lines : List String)
    (h : ∀ l ∈ csvDataLines lines, (tabFields l).length ≤ 12) :
    ∃ df, load_blast_table lines = some df ∧
      df.length = (csvDataLines lines).length := by
  rw [load_blast_table, if_pos]
  · exact ⟨_, rfl, by simp⟩
  · rw [List.all_eq_true]
    intro l hl
    simpa using h l hl

/-- Witness for C8 on a concrete two-line file with a short data line. -/
theorem C8_loader_returns_table_witness :
    (∀ l ∈ csvDataLines [exHeaderLine, exShortLine], (tabFields l).length ≤ 12) ∧
      ∃ df, load_blast_table [exHeaderLine, exShortLine] = some df ∧
        df.length = (csvDataLines [exHeaderLine, exShortLine]).length :=
  ⟨by decide, C8_loader_returns_table [exHeaderLine, exShortLine] (by decide)⟩

end BlastProject
